import Mathlib

/-!
Shallow embedding of the `counter64` crate (src/lib.rs): a 64-bit
increase-only counter built from one or more native-width atomic cells.
Four variants exist, selected by `target_pointer_width`:
the wide variant (one cell of at least 64 bits), and split variants with
2 cells of 32 bits, 4 cells of 16 bits, and 8 cells of 8 bits.

Machine integers are modelled as `Nat` with explicit `% 2 ^ w` at every
wrapping write (`fetch_add` wraps at the cell width).  Atomic cells always
hold values below `2 ^ w` (they are `usize` values); theorems that
quantify over arbitrary states carry these bounds as hypotheses, under
which the `u64` reassembly arithmetic in `get` cannot overflow, so it is
written without a trailing `% 2 ^ 64`.

Sequential semantics: each method is a function on the counter state;
`incr` returns the pair (returned value, state after the call), mirroring
the exact order of operations in the source (the chain of short-circuited
`fetch_add` tests, then `self.get()`).
-/

namespace Counter64

/-! ## Wide variant (`target_pointer_width` not 8/16/32): one `AtomicUsize` cell -/

/-- Source `Counter::new` (wide): the single cell (a 64-bit `usize`,
modelled as a `Nat` kept below `2 ^ 64`) starts at zero, per
`COUNTER_INIT`. -/
def wideNew : Nat := 0

/-- Source `Counter::get` (wide): `self.0.load(Relaxed) as u64`. -/
def wideGet (s : Nat) : Nat := s

/-- Source `Counter::incr` (wide): `self.0.fetch_add(1, Relaxed) as u64`;
returns the previous value, the cell wraps at `2 ^ 64`. -/
def wideIncr (s : Nat) : Nat × Nat := (s, (s + 1) % 2 ^ 64)

/-- Modelled from the spec: `with_init` is described in the spec but absent
from src/; for the wide variant it sets the single cell to `seed`. -/
def wideWithInit (seed : Nat) : Nat := seed % 2 ^ 64

/-! ## 2-cell split variant: cells `n1`, `n2`, each a 32-bit `usize` -/

/-- State of the 2-cell variant: fields `n1` (low) and `n2` (high). -/
structure State2 where
  n1 : Nat
  n2 : Nat
deriving Repr, DecidableEq

/-- Source `COUNTER_INIT` / `Counter::new` (2-cell): both cells zero. -/
def new2 : State2 := ⟨0, 0⟩

/-- Source `Counter::get` (2-cell), value computation of one loop
iteration: `count += n2; count <<= 32; count += n1`. -/
def get2 (s : State2) : Nat := ((0 + s.n2) <<< 32) + s.n1

/-- Source `Counter::get` (2-cell), one full iteration of the retry loop:
load `n1`, load `n2`, re-load `n1` and compare; on a match return the
reassembled value, otherwise retry (modelled as `none`).  With no
concurrent mutator the cells do not change between the loads. -/
def getOnce2 (s : State2) : Option Nat :=
  let n1 := s.n1
  let n2 := s.n2
  if n1 = s.n1 then some (((0 + n2) <<< 32) + n1) else none

/-- Source `Counter::incr` (2-cell):
`self.n1.fetch_add(1, Release) == usize::MAX && self.n2.fetch_add(1, Release) == usize::MAX`
then `self.get()`.  `fetch_add` returns the previous value and wraps at the
cell width; the `&&` short-circuits, so `n2` is touched only when the `n1`
add overflowed.  Returns `self.get()` of the state after the adds. -/
def incr2 (s : State2) : Nat × State2 :=
  let s1 : State2 := { s with n1 := (s.n1 + 1) % 2 ^ 32 }
  let s2 : State2 := if s.n1 = 2 ^ 32 - 1 then { s1 with n2 := (s1.n2 + 1) % 2 ^ 32 } else s1
  (get2 s2, s2)

/-- Modelled from the spec: `with_init` is absent from src/; each cell is
set to the corresponding bit-slice of `seed` (masked and shifted). -/
def withInit2 (seed : Nat) : State2 :=
  ⟨seed % 2 ^ 32, (seed >>> 32) % 2 ^ 32⟩

/-- Cells of the 2-cell state are in `usize` range (32 bits). -/
abbrev WF2 (s : State2) : Prop := s.n1 < 2 ^ 32 ∧ s.n2 < 2 ^ 32

/-! ## 4-cell split variant: cells `n1`..`n4`, each a 16-bit `usize` -/

/-- State of the 4-cell variant: fields `n1` (low) through `n4` (high). -/
structure State4 where
  n1 : Nat
  n2 : Nat
  n3 : Nat
  n4 : Nat
deriving Repr, DecidableEq

/-- Source `COUNTER_INIT` / `Counter::new` (4-cell): all cells zero. -/
def new4 : State4 := ⟨0, 0, 0, 0⟩

/-- Source `Counter::get` (4-cell), value computation of one loop
iteration: `count += n4; count <<= 16; count += n3; count <<= 16;
count += n2; count <<= 16; count += n1`. -/
def get4 (s : State4) : Nat :=
  ((((((0 + s.n4) <<< 16) + s.n3) <<< 16) + s.n2) <<< 16) + s.n1

/-- Source `Counter::get` (4-cell), one full iteration of the retry loop:
load `n1`..`n4` in order, re-load `n1` and compare; on a match return the
reassembled value, otherwise retry (modelled as `none`). -/
def getOnce4 (s : State4) : Option Nat :=
  let n1 := s.n1
  let n2 := s.n2
  let n3 := s.n3
  let n4 := s.n4
  if n1 = s.n1 then
    some (((((((0 + n4) <<< 16) + n3) <<< 16) + n2) <<< 16) + n1)
  else none

/-- Source `Counter::incr` (4-cell): the short-circuited chain
`n1.fetch_add(1) == MAX && n2.fetch_add(1) == MAX && n3.fetch_add(1) == MAX
&& n4.fetch_add(1) == MAX`, then `self.get()`.  Each carry test reads the
previous value of its cell, which equals that cell in the original state
because earlier adds touch lower cells only. -/
def incr4 (s : State4) : Nat × State4 :=
  let t :=
    let s1 : State4 := { s with n1 := (s.n1 + 1) % 2 ^ 16 }
    if s.n1 = 2 ^ 16 - 1 then
      let s2 : State4 := { s1 with n2 := (s1.n2 + 1) % 2 ^ 16 }
      if s.n2 = 2 ^ 16 - 1 then
        let s3 : State4 := { s2 with n3 := (s2.n3 + 1) % 2 ^ 16 }
        if s.n3 = 2 ^ 16 - 1 then
          { s3 with n4 := (s3.n4 + 1) % 2 ^ 16 }
        else s3
      else s2
    else s1
  (get4 t, t)

/-- Modelled from the spec: `with_init` is absent from src/; each cell is
set to the corresponding bit-slice of `seed` (masked and shifted). -/
def withInit4 (seed : Nat) : State4 :=
  ⟨seed % 2 ^ 16, (seed >>> 16) % 2 ^ 16, (seed >>> 32) % 2 ^ 16,
    (seed >>> 48) % 2 ^ 16⟩

/-- Cells of the 4-cell state are in `usize` range (16 bits). -/
abbrev WF4 (s : State4) : Prop :=
  s.n1 < 2 ^ 16 ∧ s.n2 < 2 ^ 16 ∧ s.n3 < 2 ^ 16 ∧ s.n4 < 2 ^ 16

/-! ## 8-cell split variant: cells `n1`..`n8`, each an 8-bit `usize` -/

/-- State of the 8-cell variant: fields `n1` (low) through `n8` (high). -/
structure State8 where
  n1 : Nat
  n2 : Nat
  n3 : Nat
  n4 : Nat
  n5 : Nat
  n6 : Nat
  n7 : Nat
  n8 : Nat
deriving Repr, DecidableEq

/-- Source `COUNTER_INIT` / `Counter::new` (8-cell): all cells zero. -/
def new8 : State8 := ⟨0, 0, 0, 0, 0, 0, 0, 0⟩

/-- Source `Counter::get` (8-cell), value computation of one loop
iteration, reproducing the source exactly: the local variables are
`n1 = self.n1`, `n2 = self.n2`, `n3 = self.n3`, `n4 = self.n4`,
`n5 = self.n1`, `n6 = self.n2`, `n7 = self.n3`, `n8 = self.n4`
(the last four re-load cells 1..4 instead of cells 5..8), then
`count += n8; count <<= 8; ...; count += n1`. -/
def get8 (s : State8) : Nat :=
  let v1 := s.n1
  let v2 := s.n2
  let v3 := s.n3
  let v4 := s.n4
  let v5 := s.n1
  let v6 := s.n2
  let v7 := s.n3
  let v8 := s.n4
  ((((((((((((((0 + v8) <<< 8) + v7) <<< 8) + v6) <<< 8) + v5) <<< 8)
    + v4) <<< 8) + v3) <<< 8) + v2) <<< 8) + v1

/-- Reassembly of all eight distinct cells in little-endian chunk order,
following the words of the spec invariant (cell `i` contributes bits
`[i*8, (i+1)*8)`); this is the logical 64-bit value of an 8-cell state,
to be compared with what `get8` actually computes. -/
def logical8 (s : State8) : Nat :=
  ((((((((((((((0 + s.n8) <<< 8) + s.n7) <<< 8) + s.n6) <<< 8) + s.n5) <<< 8)
    + s.n4) <<< 8) + s.n3) <<< 8) + s.n2) <<< 8) + s.n1

/-- Source `Counter::get` (8-cell), one full iteration of the retry loop
with the same loads as `get8`, then the `n1` recheck. -/
def getOnce8 (s : State8) : Option Nat :=
  let n1 := s.n1
  let n2 := s.n2
  let n3 := s.n3
  let n4 := s.n4
  let n5 := s.n1
  let n6 := s.n2
  let n7 := s.n3
  let n8 := s.n4
  if n1 = s.n1 then
    some (((((((((((((((0 + n8) <<< 8) + n7) <<< 8) + n6) <<< 8) + n5) <<< 8)
      + n4) <<< 8) + n3) <<< 8) + n2) <<< 8) + n1)
  else none

/-- Source `Counter::incr` (8-cell): the short-circuited chain of eight
`fetch_add(1) == MAX` tests, then `self.get()`. -/
def incr8 (s : State8) : Nat × State8 :=
  let t :=
    let s1 : State8 := { s with n1 := (s.n1 + 1) % 2 ^ 8 }
    if s.n1 = 2 ^ 8 - 1 then
      let s2 : State8 := { s1 with n2 := (s1.n2 + 1) % 2 ^ 8 }
      if s.n2 = 2 ^ 8 - 1 then
        let s3 : State8 := { s2 with n3 := (s2.n3 + 1) % 2 ^ 8 }
        if s.n3 = 2 ^ 8 - 1 then
          let s4 : State8 := { s3 with n4 := (s3.n4 + 1) % 2 ^ 8 }
          if s.n4 = 2 ^ 8 - 1 then
            let s5 : State8 := { s4 with n5 := (s4.n5 + 1) % 2 ^ 8 }
            if s.n5 = 2 ^ 8 - 1 then
              let s6 : State8 := { s5 with n6 := (s5.n6 + 1) % 2 ^ 8 }
              if s.n6 = 2 ^ 8 - 1 then
                let s7 : State8 := { s6 with n7 := (s6.n7 + 1) % 2 ^ 8 }
                if s.n7 = 2 ^ 8 - 1 then
                  { s7 with n8 := (s7.n8 + 1) % 2 ^ 8 }
                else s7
              else s6
            else s5
          else s4
        else s3
      else s2
    else s1
  (get8 t, t)

/-- Modelled from the spec: `with_init` is absent from src/; each cell is
set to the corresponding bit-slice of `seed` (masked and shifted). -/
def withInit8 (seed : Nat) : State8 :=
  ⟨seed % 2 ^ 8, (seed >>> 8) % 2 ^ 8, (seed >>> 16) % 2 ^ 8,
    (seed >>> 24) % 2 ^ 8, (seed >>> 32) % 2 ^ 8, (seed >>> 40) % 2 ^ 8,
    (seed >>> 48) % 2 ^ 8, (seed >>> 56) % 2 ^ 8⟩

/-- Cells of the 8-cell state are in `usize` range (8 bits). -/
abbrev WF8 (s : State8) : Prop :=
  s.n1 < 2 ^ 8 ∧ s.n2 < 2 ^ 8 ∧ s.n3 < 2 ^ 8 ∧ s.n4 < 2 ^ 8 ∧
  s.n5 < 2 ^ 8 ∧ s.n6 < 2 ^ 8 ∧ s.n7 < 2 ^ 8 ∧ s.n8 < 2 ^ 8

/-! ## Iterated increments (sequential executions) -/

/-- State after `n` serialized `incr` calls, wide variant. -/
def iterWide (n : Nat) (s : Nat) : Nat :=
  (fun t => (wideIncr t).2)^[n] s

/-- State after `n` serialized `incr` calls, 2-cell variant. -/
def iter2 (n : Nat) (s : State2) : State2 :=
  (fun t => (incr2 t).2)^[n] s

/-- State after `n` serialized `incr` calls, 4-cell variant. -/
def iter4 (n : Nat) (s : State4) : State4 :=
  (fun t => (incr4 t).2)^[n] s

/-- State after `n` serialized `incr` calls, 8-cell variant. -/
def iter8 (n : Nat) (s : State8) : State8 :=
  (fun t => (incr8 t).2)^[n] s

/-! ## Atomic-event traces

The memory operations each method performs, as a list of events on the
cell array (cell indices 0-based in field order): `get` issues only
`load`s, in the order the source loads them, the final one being the
`n1` recheck; `incr` issues the `fetch_add`s that actually execute given
the short-circuit chain. -/

/-- An atomic operation on one cell: a plain load, or a read-modify-write
add of one (`fetch_add(1, _)`). -/
inductive Event where
  | load : Nat → Event
  | rmwAdd : Nat → Event
deriving Repr, DecidableEq

/-- An event mutates the cells exactly when it is a read-modify-write. -/
def isStore : Event → Bool
  | .load _ => false
  | .rmwAdd _ => true

/-- Effect of one event on the cell array, cells of width `w` bits. -/
def applyEvent (w : Nat) (cs : List Nat) : Event → List Nat
  | .load _ => cs
  | .rmwAdd i => cs.set i ((cs.getD i 0 + 1) % 2 ^ w)

/-- Effect of an event sequence on the cell array. -/
def applyEvents (w : Nat) (es : List Event) (cs : List Nat) : List Nat :=
  es.foldl (applyEvent w) cs

/-- Loads performed by `get` in the wide variant: the single cell. -/
def getEventsWide : List Event := [.load 0]

/-- Loads of one `get` loop iteration, 2-cell variant: `n1`, `n2`, then
the `n1` recheck. -/
def getEvents2 : List Event := [.load 0, .load 1, .load 0]

/-- Loads of one `get` loop iteration, 4-cell variant. -/
def getEvents4 : List Event :=
  [.load 0, .load 1, .load 2, .load 3, .load 0]

/-- Loads of one `get` loop iteration, 8-cell variant: per the source,
the second block of four loads re-reads cells 0..3, and then the
recheck reads cell 0 again. -/
def getEvents8 : List Event :=
  [.load 0, .load 1, .load 2, .load 3,
   .load 0, .load 1, .load 2, .load 3, .load 0]

/-- Read-modify-writes performed by `incr` in the 2-cell variant: the
`n1` add always; the `n2` add only when `n1` was at `usize::MAX`. -/
def incrEvents2 (s : State2) : List Event :=
  .rmwAdd 0 :: (if s.n1 = 2 ^ 32 - 1 then [.rmwAdd 1] else [])

/-- Cell array of a 2-cell state. -/
def cells2 (s : State2) : List Nat := [s.n1, s.n2]

/-! ## Shared lemmas -/

lemma iterWide_eq (n : Nat) (v : Nat) (h : v < 2 ^ 64) :
    iterWide n v = (v + n) % 2 ^ 64 := by
  induction n with
  | zero => simp only [iterWide, Function.iterate_zero_apply]; omega
  | succ n ih =>
      have step : iterWide (n + 1) v = (iterWide n v + 1) % 2 ^ 64 := by
        simp only [iterWide, Function.iterate_succ_apply', wideIncr]
      rw [step, ih]
      omega

lemma incr2_step (s : State2) (h : WF2 s) :
    WF2 (incr2 s).2 ∧ get2 (incr2 s).2 = (get2 s + 1) % 2 ^ 64 := by
  obtain ⟨h1, h2⟩ := h
  simp only [incr2, get2, WF2, Nat.shiftLeft_eq]
  split_ifs <;> simp only [] <;> omega

lemma incr4_step (s : State4) (h : WF4 s) :
    WF4 (incr4 s).2 ∧ get4 (incr4 s).2 = (get4 s + 1) % 2 ^ 64 := by
  obtain ⟨h1, h2, h3, h4⟩ := h
  simp only [incr4, get4, WF4, Nat.shiftLeft_eq]
  split_ifs <;> simp only [] <;> omega

lemma incr8_step (s : State8) (h : WF8 s) :
    WF8 (incr8 s).2 ∧ logical8 (incr8 s).2 = (logical8 s + 1) % 2 ^ 64 := by
  obtain ⟨h1, h2, h3, h4, h5, h6, h7, h8⟩ := h
  simp only [incr8, logical8, WF8, Nat.shiftLeft_eq]
  split_ifs <;> simp only [] <;> omega

lemma iter2_eq (n : Nat) (s : State2) (h : WF2 s) :
    WF2 (iter2 n s) ∧ get2 (iter2 n s) = (get2 s + n) % 2 ^ 64 := by
  induction n with
  | zero =>
      have hlt : get2 s < 2 ^ 64 := by
        obtain ⟨h1, h2⟩ := h
        simp only [get2, Nat.shiftLeft_eq]
        omega
      refine ⟨by simpa [iter2] using h, ?_⟩
      simp only [iter2, Function.iterate_zero_apply]
      omega
  | succ n ih =>
      have step : iter2 (n + 1) s = (incr2 (iter2 n s)).2 := by
        simp only [iter2, Function.iterate_succ_apply']
      obtain ⟨ihWF, ihval⟩ := ih
      obtain ⟨sWF, sval⟩ := incr2_step _ ihWF
      rw [step]
      refine ⟨sWF, ?_⟩
      rw [sval, ihval]
      omega

lemma iter4_eq (n : Nat) (s : State4) (h : WF4 s) :
    WF4 (iter4 n s) ∧ get4 (iter4 n s) = (get4 s + n) % 2 ^ 64 := by
  induction n with
  | zero =>
      have hlt : get4 s < 2 ^ 64 := by
        obtain ⟨h1, h2, h3, h4⟩ := h
        simp only [get4, Nat.shiftLeft_eq]
        omega
      refine ⟨by simpa [iter4] using h, ?_⟩
      simp only [iter4, Function.iterate_zero_apply]
      omega
  | succ n ih =>
      have step : iter4 (n + 1) s = (incr4 (iter4 n s)).2 := by
        simp only [iter4, Function.iterate_succ_apply']
      obtain ⟨ihWF, ihval⟩ := ih
      obtain ⟨sWF, sval⟩ := incr4_step _ ihWF
      rw [step]
      refine ⟨sWF, ?_⟩
      rw [sval, ihval]
      omega

lemma iter8_eq (n : Nat) (s : State8) (h : WF8 s) :
    WF8 (iter8 n s) ∧ logical8 (iter8 n s) = (logical8 s + n) % 2 ^ 64 := by
  induction n with
  | zero =>
      have hlt : logical8 s < 2 ^ 64 := by
        obtain ⟨h1, h2, h3, h4, h5, h6, h7, h8⟩ := h
        simp only [logical8, Nat.shiftLeft_eq]
        omega
      refine ⟨by simpa [iter8] using h, ?_⟩
      simp only [iter8, Function.iterate_zero_apply]
      omega
  | succ n ih =>
      have step : iter8 (n + 1) s = (incr8 (iter8 n s)).2 := by
        simp only [iter8, Function.iterate_succ_apply']
      obtain ⟨ihWF, ihval⟩ := ih
      obtain ⟨sWF, sval⟩ := incr8_step _ ihWF
      rw [step]
      refine ⟨sWF, ?_⟩
      rw [sval, ihval]
      omega

/-! ## Seeding round-trips that do hold (wide, 2-cell, 4-cell) -/

lemma wideWithInit_get (x : Nat) (h : x < 2 ^ 64) :
    wideGet (wideWithInit x) = x := by
  simp only [wideGet, wideWithInit]
  omega

lemma withInit2_get (x : Nat) (h : x < 2 ^ 64) :
    get2 (withInit2 x) = x := by
  simp only [get2, withInit2, Nat.shiftLeft_eq, Nat.shiftRight_eq_div_pow]
  omega

lemma withInit4_get (x : Nat) (h : x < 2 ^ 64) :
    get4 (withInit4 x) = x := by
  simp only [get4, withInit4, Nat.shiftLeft_eq, Nat.shiftRight_eq_div_pow]
  omega

lemma withInit2_WF (x : Nat) : WF2 (withInit2 x) := by
  constructor <;> simp [withInit2] <;> omega

lemma withInit4_WF (x : Nat) : WF4 (withInit4 x) := by
  refine ⟨?_, ?_, ?_, ?_⟩ <;> simp [withInit4] <;> omega

lemma withInit8_WF (x : Nat) : WF8 (withInit8 x) := by
  refine ⟨?_, ?_, ?_, ?_, ?_, ?_, ?_, ?_⟩ <;> simp [withInit8] <;> omega

lemma withInit8_logical (x : Nat) (h : x < 2 ^ 64) :
    logical8 (withInit8 x) = x := by
  simp only [logical8, withInit8, Nat.shiftLeft_eq, Nat.shiftRight_eq_div_pow]
  omega

/-- The event trace of `incr2` has the same effect on the cells as
`incr2` itself, tying the trace model to the state functions. -/
lemma incrEvents2_linked (s : State2) :
    applyEvents 32 (incrEvents2 s) (cells2 s) = cells2 (incr2 s).2 := by
  simp only [incrEvents2, incr2, cells2, applyEvents]
  split <;> simp [applyEvent, List.getD]

/-! ## Claims -/

/-- C1: the claim says every variant's `incr`, called serialized, returns
`V0 + k` on the k-th (0-indexed) call, the value held immediately before
the call's own increment.  Evaluating the code at `V0 = 0`, `k = 0`: the
wide variant's `fetch_add` does return the previous value `0`, but the
2-cell variant returns `self.get()` computed after its add, namely `1`,
contradicting the claim (and the `incr` doc comment in the source). -/
theorem incr_return_value_first_call :
    (wideIncr wideNew).1 = 0 ∧ get2 new2 = 0 ∧ (incr2 new2).1 = 1 := by
  decide

/-- C2: the claim says the 8-cell `get` reassembles all eight distinct
cells.  In the source, the loads for `n5`..`n8` re-read cells `n1`..`n4`,
so on the state whose only nonzero cell is `n5 = 1` (a well-formed state
of logical value `2 ^ 32`), `get` returns `0` instead. -/
theorem get8_skips_high_cells :
    WF8 ⟨0, 0, 0, 0, 1, 0, 0, 0⟩ ∧
    logical8 ⟨0, 0, 0, 0, 1, 0, 0, 0⟩ = 2 ^ 32 ∧
    get8 ⟨0, 0, 0, 0, 1, 0, 0, 0⟩ = 0 := by
  decide

/-- C3: the claim says that after `N` completed `incr` calls from `V0`,
`get()` returns `(V0 + N) mod 2 ^ 64` in every variant.  In the 8-cell
variant, starting from `new` (`V0 = 0`) and performing one `incr`, the
state is correct (`n1 = 1`) but `get` returns `2 ^ 32 + 1`, not `1`,
because its loads duplicate the low four cells into the high half. -/
theorem get8_after_one_incr :
    (incr8 new8).2 = ⟨1, 0, 0, 0, 0, 0, 0, 0⟩ ∧
    get8 (incr8 new8).2 = 2 ^ 32 + 1 := by
  decide

/-- C4: in every split variant, on a counter whose logical value is
`2 ^ 32 - 1` (all low-order chunks at their maximum), one `incr` carries
across every affected cell and the logical value becomes exactly
`2 ^ 32`. -/
theorem carry_at_2pow32 :
    (∀ s : State2, WF2 s → get2 s = 2 ^ 32 - 1 → get2 (incr2 s).2 = 2 ^ 32) ∧
    (∀ s : State4, WF4 s → get4 s = 2 ^ 32 - 1 → get4 (incr4 s).2 = 2 ^ 32) ∧
    (∀ s : State8, WF8 s → logical8 s = 2 ^ 32 - 1 →
      logical8 (incr8 s).2 = 2 ^ 32) := by
  refine ⟨fun s hWF hv => ?_, fun s hWF hv => ?_, fun s hWF hv => ?_⟩
  · rw [(incr2_step s hWF).2, hv]
    norm_num
  · rw [(incr4_step s hWF).2, hv]
    norm_num
  · rw [(incr8_step s hWF).2, hv]
    norm_num

/-- C4 witness: the carry theorem applied at the concrete saturated
states of each split variant. -/
theorem carry_at_2pow32_witness :
    get2 (incr2 ⟨2 ^ 32 - 1, 0⟩).2 = 2 ^ 32 ∧
    get4 (incr4 ⟨2 ^ 16 - 1, 2 ^ 16 - 1, 0, 0⟩).2 = 2 ^ 32 ∧
    logical8
      (incr8 ⟨2 ^ 8 - 1, 2 ^ 8 - 1, 2 ^ 8 - 1, 2 ^ 8 - 1, 0, 0, 0, 0⟩).2 =
      2 ^ 32 :=
  ⟨carry_at_2pow32.1 _ (by decide) (by decide),
   carry_at_2pow32.2.1 _ (by decide) (by decide),
   carry_at_2pow32.2.2 _ (by decide) (by decide)⟩

/-- C5: the claim says `with_init(X).get() == X` before any increment, in
every variant.  `with_init` is modelled from the spec (set each cell to
the corresponding bit-slice of the seed); the cells of
`withInit8 (2 ^ 32)` do hold the logical value `2 ^ 32`, yet the 8-cell
`get` returns `0` because it never reads cells `n5`..`n8`. -/
theorem withInit8_roundtrip_broken :
    logical8 (withInit8 (2 ^ 32)) = 2 ^ 32 ∧
    get8 (withInit8 (2 ^ 32)) = 0 := by
  decide

/-- C6 counterexample: the claim says `get()` never returns a value
smaller than any previously returned value.  On the wide variant seeded
at `V0 = 2 ^ 64 - 1` (a legal starting value per the interface, also
reached from zero after `2 ^ 64 - 1` increments by `iterWide_eq`), `get`
first returns `2 ^ 64 - 1`; one more `incr` wraps the cell and `get`
returns `0`, a strictly smaller value. -/
theorem wide_get_decreases_at_wrap :
    wideGet (wideWithInit (2 ^ 64 - 1)) = 2 ^ 64 - 1 ∧
    wideGet ((wideIncr (wideWithInit (2 ^ 64 - 1))).2) = 0 ∧
    wideGet ((wideIncr (wideWithInit (2 ^ 64 - 1))).2) <
      wideGet (wideWithInit (2 ^ 64 - 1)) := by
  decide

/-- C6 amended: the value a counter reads is non-decreasing over any
serialized sequence of `incr` calls, provided the counter does not wrap
past `2 ^ 64 - 1`; for the wide, 2-cell and 4-cell variants this is the
value `get` returns, and for the 8-cell variant it holds of the logical
cell value (its `get` is broken independently, see C2). -/
theorem monotone_without_wrap :
    (∀ v m n : Nat, v < 2 ^ 64 → m ≤ n → v + n < 2 ^ 64 →
      wideGet (iterWide m v) ≤ wideGet (iterWide n v)) ∧
    (∀ (s : State2) (m n : Nat), WF2 s → m ≤ n → get2 s + n < 2 ^ 64 →
      get2 (iter2 m s) ≤ get2 (iter2 n s)) ∧
    (∀ (s : State4) (m n : Nat), WF4 s → m ≤ n → get4 s + n < 2 ^ 64 →
      get4 (iter4 m s) ≤ get4 (iter4 n s)) ∧
    (∀ (s : State8) (m n : Nat), WF8 s → m ≤ n → logical8 s + n < 2 ^ 64 →
      logical8 (iter8 m s) ≤ logical8 (iter8 n s)) := by
  refine ⟨fun v m n hv hmn hn => ?_, fun s m n hWF hmn hn => ?_,
    fun s m n hWF hmn hn => ?_, fun s m n hWF hmn hn => ?_⟩
  · simp only [wideGet, iterWide_eq m v hv, iterWide_eq n v hv]
    omega
  · rw [(iter2_eq m s hWF).2, (iter2_eq n s hWF).2]
    omega
  · rw [(iter4_eq m s hWF).2, (iter4_eq n s hWF).2]
    omega
  · rw [(iter8_eq m s hWF).2, (iter8_eq n s hWF).2]
    omega

/-- C6 amended witness: the monotonicity theorem applied at concrete
counters and step counts. -/
theorem monotone_without_wrap_witness :
    wideGet (iterWide 1 5) ≤ wideGet (iterWide 3 5) ∧
    get2 (iter2 1 new2) ≤ get2 (iter2 2 new2) ∧
    get4 (iter4 1 new4) ≤ get4 (iter4 2 new4) ∧
    logical8 (iter8 1 new8) ≤ logical8 (iter8 2 new8) :=
  ⟨monotone_without_wrap.1 5 1 3 (by norm_num) (by norm_num) (by norm_num),
   monotone_without_wrap.2.1 new2 1 2 (by decide) (by decide) (by decide),
   monotone_without_wrap.2.2.1 new4 1 2 (by decide) (by decide) (by decide),
   monotone_without_wrap.2.2.2 new8 1 2 (by decide) (by decide) (by decide)⟩

/-- C7: in every split variant, `incr` short-circuits the carry chain:
when cell 0 is not at the chunk maximum only cell 0 changes (to its value
plus one), and in general the chain stops at the first cell whose add
does not overflow, leaving every higher-order cell unchanged (the cells
below it wrap to zero). -/
theorem carry_chain_frame :
    (∀ s : State2, WF2 s → s.n1 ≠ 2 ^ 32 - 1 →
      (incr2 s).2 = ⟨s.n1 + 1, s.n2⟩) ∧
    (∀ s : State4, WF4 s → s.n1 ≠ 2 ^ 16 - 1 →
      (incr4 s).2 = ⟨s.n1 + 1, s.n2, s.n3, s.n4⟩) ∧
    (∀ s : State4, WF4 s → s.n1 = 2 ^ 16 - 1 → s.n2 ≠ 2 ^ 16 - 1 →
      (incr4 s).2 = ⟨0, s.n2 + 1, s.n3, s.n4⟩) ∧
    (∀ s : State4, WF4 s → s.n1 = 2 ^ 16 - 1 → s.n2 = 2 ^ 16 - 1 →
      s.n3 ≠ 2 ^ 16 - 1 → (incr4 s).2 = ⟨0, 0, s.n3 + 1, s.n4⟩) ∧
    (∀ s : State8, WF8 s → s.n1 ≠ 2 ^ 8 - 1 →
      (incr8 s).2 = ⟨s.n1 + 1, s.n2, s.n3, s.n4, s.n5, s.n6, s.n7, s.n8⟩) ∧
    (∀ s : State8, WF8 s → s.n1 = 2 ^ 8 - 1 → s.n2 ≠ 2 ^ 8 - 1 →
      (incr8 s).2 = ⟨0, s.n2 + 1, s.n3, s.n4, s.n5, s.n6, s.n7, s.n8⟩) ∧
    (∀ s : State8, WF8 s → s.n1 = 2 ^ 8 - 1 → s.n2 = 2 ^ 8 - 1 →
      s.n3 ≠ 2 ^ 8 - 1 →
      (incr8 s).2 = ⟨0, 0, s.n3 + 1, s.n4, s.n5, s.n6, s.n7, s.n8⟩) ∧
    (∀ s : State8, WF8 s → s.n1 = 2 ^ 8 - 1 → s.n2 = 2 ^ 8 - 1 →
      s.n3 = 2 ^ 8 - 1 → s.n4 ≠ 2 ^ 8 - 1 →
      (incr8 s).2 = ⟨0, 0, 0, s.n4 + 1, s.n5, s.n6, s.n7, s.n8⟩) ∧
    (∀ s : State8, WF8 s → s.n1 = 2 ^ 8 - 1 → s.n2 = 2 ^ 8 - 1 →
      s.n3 = 2 ^ 8 - 1 → s.n4 = 2 ^ 8 - 1 → s.n5 ≠ 2 ^ 8 - 1 →
      (incr8 s).2 = ⟨0, 0, 0, 0, s.n5 + 1, s.n6, s.n7, s.n8⟩) ∧
    (∀ s : State8, WF8 s → s.n1 = 2 ^ 8 - 1 → s.n2 = 2 ^ 8 - 1 →
      s.n3 = 2 ^ 8 - 1 → s.n4 = 2 ^ 8 - 1 → s.n5 = 2 ^ 8 - 1 →
      s.n6 ≠ 2 ^ 8 - 1 →
      (incr8 s).2 = ⟨0, 0, 0, 0, 0, s.n6 + 1, s.n7, s.n8⟩) ∧
    (∀ s : State8, WF8 s → s.n1 = 2 ^ 8 - 1 → s.n2 = 2 ^ 8 - 1 →
      s.n3 = 2 ^ 8 - 1 → s.n4 = 2 ^ 8 - 1 → s.n5 = 2 ^ 8 - 1 →
      s.n6 = 2 ^ 8 - 1 → s.n7 ≠ 2 ^ 8 - 1 →
      (incr8 s).2 = ⟨0, 0, 0, 0, 0, 0, s.n7 + 1, s.n8⟩) := by
  refine ⟨fun s hWF h1 => ?_, fun s hWF h1 => ?_, fun s hWF h1 h2 => ?_,
    fun s hWF h1 h2 h3 => ?_, fun s hWF h1 => ?_, fun s hWF h1 h2 => ?_,
    fun s hWF h1 h2 h3 => ?_, fun s hWF h1 h2 h3 h4 => ?_,
    fun s hWF h1 h2 h3 h4 h5 => ?_, fun s hWF h1 h2 h3 h4 h5 h6 => ?_,
    fun s hWF h1 h2 h3 h4 h5 h6 h7 => ?_⟩
  · obtain ⟨w1, w2⟩ := hWF
    simp only [incr2]
    rw [if_neg h1]
    simp only [State2.mk.injEq, and_true, true_and]
    omega
  · obtain ⟨w1, w2, w3, w4⟩ := hWF
    simp only [incr4]
    rw [if_neg h1]
    simp only [State4.mk.injEq, and_true, true_and]
    omega
  · obtain ⟨w1, w2, w3, w4⟩ := hWF
    simp only [incr4]
    rw [if_pos h1, if_neg h2]
    simp only [State4.mk.injEq, and_true, true_and]
    omega
  · obtain ⟨w1, w2, w3, w4⟩ := hWF
    simp only [incr4]
    rw [if_pos h1, if_pos h2, if_neg h3]
    simp only [State4.mk.injEq, and_true, true_and]
    omega
  · obtain ⟨w1, w2, w3, w4, w5, w6, w7, w8⟩ := hWF
    simp only [incr8]
    rw [if_neg h1]
    simp only [State8.mk.injEq, and_true, true_and]
    omega
  · obtain ⟨w1, w2, w3, w4, w5, w6, w7, w8⟩ := hWF
    simp only [incr8]
    rw [if_pos h1, if_neg h2]
    simp only [State8.mk.injEq, and_true, true_and]
    omega
  · obtain ⟨w1, w2, w3, w4, w5, w6, w7, w8⟩ := hWF
    simp only [incr8]
    rw [if_pos h1, if_pos h2, if_neg h3]
    simp only [State8.mk.injEq, and_true, true_and]
    omega
  · obtain ⟨w1, w2, w3, w4, w5, w6, w7, w8⟩ := hWF
    simp only [incr8]
    rw [if_pos h1, if_pos h2, if_pos h3, if_neg h4]
    simp only [State8.mk.injEq, and_true, true_and]
    omega
  · obtain ⟨w1, w2, w3, w4, w5, w6, w7, w8⟩ := hWF
    simp only [incr8]
    rw [if_pos h1, if_pos h2, if_pos h3, if_pos h4, if_neg h5]
    simp only [State8.mk.injEq, and_true, true_and]
    omega
  · obtain ⟨w1, w2, w3, w4, w5, w6, w7, w8⟩ := hWF
    simp only [incr8]
    rw [if_pos h1, if_pos h2, if_pos h3, if_pos h4, if_pos h5, if_neg h6]
    simp only [State8.mk.injEq, and_true, true_and]
    omega
  · obtain ⟨w1, w2, w3, w4, w5, w6, w7, w8⟩ := hWF
    simp only [incr8]
    rw [if_pos h1, if_pos h2, if_pos h3, if_pos h4, if_pos h5, if_pos h6,
      if_neg h7]
    simp only [State8.mk.injEq, and_true, true_and]
    omega

/-- C7 witness: the frame theorem applied at concrete states of each
split variant (no carry on the 2-cell state; a carry stopping at cell 1
on the 4-cell state; a carry stopping at cell 3 on the 8-cell state). -/
theorem carry_chain_frame_witness :
    (incr2 ⟨5, 7⟩).2 = ⟨6, 7⟩ ∧
    (incr4 ⟨2 ^ 16 - 1, 3, 9, 11⟩).2 = ⟨0, 4, 9, 11⟩ ∧
    (incr8 ⟨2 ^ 8 - 1, 2 ^ 8 - 1, 2 ^ 8 - 1, 4, 5, 6, 7, 8⟩).2 =
      ⟨0, 0, 0, 5, 5, 6, 7, 8⟩ :=
  ⟨carry_chain_frame.1 _ (by decide) (by decide),
   carry_chain_frame.2.2.1 _ (by decide) (by decide) (by decide),
   carry_chain_frame.2.2.2.2.2.2.2.1 _ (by decide) (by decide) (by decide)
     (by decide) (by decide)⟩

/-- C8: a counter produced by `new()` has value 0 in every variant. -/
theorem new_counters_read_zero :
    wideGet wideNew = 0 ∧ get2 new2 = 0 ∧ get4 new4 = 0 ∧ get8 new8 = 0 := by
  decide

/-- C9: in every split variant, when the cells do not change during the
read (no concurrent mutator), the `n1` recheck succeeds on the very first
iteration of the retry loop and `get` returns. -/
theorem get_returns_first_iteration :
    (∀ s : State2, getOnce2 s = some (get2 s)) ∧
    (∀ s : State4, getOnce4 s = some (get4 s)) ∧
    (∀ s : State8, getOnce8 s = some (get8 s)) := by
  refine ⟨fun s => ?_, fun s => ?_, fun s => ?_⟩
  · unfold getOnce2 get2
    simp
  · unfold getOnce4 get4
    simp
  · unfold getOnce8 get8
    simp

/-- C10: in every variant, `get` performs only load events (no store or
read-modify-write), so running its event trace leaves the cell array
unchanged. -/
theorem get_performs_only_loads :
    (getEventsWide.all (fun e => !isStore e) = true ∧
      ∀ cs : List Nat, applyEvents 64 getEventsWide cs = cs) ∧
    (getEvents2.all (fun e => !isStore e) = true ∧
      ∀ cs : List Nat, applyEvents 32 getEvents2 cs = cs) ∧
    (getEvents4.all (fun e => !isStore e) = true ∧
      ∀ cs : List Nat, applyEvents 16 getEvents4 cs = cs) ∧
    (getEvents8.all (fun e => !isStore e) = true ∧
      ∀ cs : List Nat, applyEvents 8 getEvents8 cs = cs) :=
  ⟨⟨by decide, fun cs => rfl⟩, ⟨by decide, fun cs => rfl⟩,
   ⟨by decide, fun cs => rfl⟩, ⟨by decide, fun cs => rfl⟩⟩

end Counter64
